import Mathlib

/-!
# Verification of the medicine-authenticity engine (src/app.jsx)

Shallow embedding of the verification engine of the repository:
token codec (`encodeToken` / `decodeToken` built on base64 and JSON),
ledger lookup, duplicate-scan tracking, and the recall/expiry business
rules of `handleVerify`, together with theorems settling the spec claims.

Modelling conventions:
* JS strings are sequences of UTF-16 code units; the engine only ever
  feeds `btoa` strings whose code units are below 256 (latin1), the
  range on which Lean `String`/`Char` and JS strings agree.  `btoa`
  throws on a code unit ≥ 256; we model the throw as `none`.
* Instants are milliseconds on the local timeline (the code compares
  `new Date()` with `new Date(exp + "T23:59:59")`, both local, so a
  single linear timeline is faithful).  A calendar date is its day
  index (days since 1970-01-01); `t` ms falls on day `t / 86400000`.
* The JS `Set` named `scanned` is modelled as a list of keys where
  insertion prepends a missing key; only membership is ever observed.
-/

namespace MedAuth

/-! ## Base64 (`btoa` / `atob`)

`btoa` maps a latin1 string to its base64 encoding; `atob` is the
WHATWG forgiving-base64 decoder (strip ASCII whitespace, strip up to
two trailing `=` when the length is a multiple of four, reject a
length ≡ 1 (mod 4) and any character outside the alphabet, then
decode 6-bit groups, discarding leftover bits). -/

def b64Alphabet : List Char :=
  "ABCDEFGHIJKLMNOPQRSTUVWXYZabcdefghijklmnopqrstuvwxyz0123456789+/".data

def b64char (v : Nat) : Char := b64Alphabet.getD v 'A'

def b64val (c : Char) : Option Nat := b64Alphabet.findIdx? (fun d => d = c)

/-- Bytes (each < 256) to 6-bit values, in base64 group structure. -/
def encode6 : List Nat → List Nat
  | a :: b :: c :: rest =>
      (a / 4) :: ((a % 4) * 16 + b / 16) :: ((b % 16) * 4 + c / 64) :: (c % 64) :: encode6 rest
  | [a, b] => [a / 4, (a % 4) * 16 + b / 16, (b % 16) * 4]
  | [a] => [a / 4, (a % 4) * 16]
  | [] => []

/-- 6-bit values back to bytes; leftover bits of a trailing partial
group are discarded (forgiving-base64).  A trailing single value
carries fewer than 8 bits and yields no byte. -/
def decode6 : List Nat → List Nat
  | v1 :: v2 :: v3 :: v4 :: rest =>
      (v1 * 4 + v2 / 16) :: ((v2 % 16) * 16 + v3 / 4) :: ((v3 % 4) * 64 + v4) :: decode6 rest
  | [v1, v2, v3] => [v1 * 4 + v2 / 16, (v2 % 16) * 16 + v3 / 4]
  | [v1, v2] => [v1 * 4 + v2 / 16]
  | [_] => []
  | [] => []

def b64pad (n : Nat) : List Char :=
  match n % 3 with
  | 1 => ['=', '=']
  | 2 => ['=']
  | _ => []

def btoaBytes (l : List Nat) : List Char :=
  (encode6 l).map b64char ++ b64pad l.length

/-- JS `btoa`: throws (here `none`) when a code unit is ≥ 256. -/
def btoa (s : String) : Option String :=
  if s.data.all (fun c => c.toNat < 256) then
    some (btoaBytes (s.data.map Char.toNat)).asString
  else none

/-- ASCII whitespace stripped by forgiving-base64. -/
def isB64Ws (c : Char) : Bool :=
  c = ' ' || c = '\t' || c = '\n' || c = '\x0c' || c = '\r'

/-- Remove up to two leading `=` characters. -/
def dropPadRev (l : List Char) : List Char :=
  match l with
  | c1 :: rest =>
    if c1 = '=' then
      match rest with
      | c2 :: rest2 => if c2 = '=' then rest2 else rest
      | [] => rest
    else l
  | [] => l

/-- Remove up to two trailing `=` characters. -/
def dropPad (l : List Char) : List Char := (dropPadRev l.reverse).reverse

/-- JS `atob` (forgiving-base64 decode); `none` models the thrown
`InvalidCharacterError`. -/
def atob (s : String) : Option String :=
  let cleaned := s.data.filter (fun c => !isB64Ws c)
  let body := if cleaned.length % 4 = 0 then dropPad cleaned else cleaned
  if body.length % 4 = 1 then none
  else
    match body.mapM b64val with
    | none => none
    | some vals => some ((decode6 vals).map Char.ofNat).asString

/-! ## JSON values and `JSON.parse` / `JSON.stringify`

`Json` models the JS values produced by `JSON.parse`.  A number is
kept as its validated source lexeme: the engine never observes a
numeric value other than through truthiness and strict equality with
a string (always false), so no float semantics are needed.  Object
member lists keep source order; duplicate keys are resolved at access
time by "last wins", matching `JSON.parse` into a JS object. -/

inductive Json where
  | null
  | bool (b : Bool)
  | num (lex : String)
  | str (s : String)
  | arr (elems : List Json)
  | obj (members : List (String × Json))
deriving Repr

/-- JSON whitespace (`JSON.parse` skips exactly these). -/
def isJsonWs (c : Char) : Bool :=
  c = ' ' || c = '\t' || c = '\n' || c = '\r'

def skipWs : List Char → List Char
  | c :: rest => if isJsonWs c then skipWs rest else c :: rest
  | [] => []

def hexVal (c : Char) : Option Nat :=
  if '0' ≤ c && c ≤ '9' then some (c.toNat - 48)
  else if 'a' ≤ c && c ≤ 'f' then some (c.toNat - 87)
  else if 'A' ≤ c && c ≤ 'F' then some (c.toNat - 55)
  else none

/-- Step for a `\uXXXX` escape whose four hex digits decode to `v`,
with `tail` the input after the escape: the emitted character and the
input still to parse.  A high surrogate pairs with an immediately
following `\u` low surrogate into one code point; an unpaired
surrogate becomes U+FFFD (see `parseJStringAux`); anything else is
the code point `v` itself. -/
def uEscapeStep (v : Nat) (tail : List Char) : Char × List Char :=
  if 0xD800 ≤ v ∧ v ≤ 0xDBFF then
    match tail with
    | b1 :: u1 :: g1 :: g2 :: g3 :: g4 :: rest =>
      if b1 = '\\' ∧ u1 = 'u' then
        match hexVal g1, hexVal g2, hexVal g3, hexVal g4 with
        | some e1, some e2, some e3, some e4 =>
          let w := ((e1 * 16 + e2) * 16 + e3) * 16 + e4
          if 0xDC00 ≤ w ∧ w ≤ 0xDFFF then
            (Char.ofNat (0x10000 + (v - 0xD800) * 0x400 + (w - 0xDC00)), rest)
          else (Char.ofNat 0xFFFD, b1 :: u1 :: g1 :: g2 :: g3 :: g4 :: rest)
        | _, _, _, _ => (Char.ofNat 0xFFFD, b1 :: u1 :: g1 :: g2 :: g3 :: g4 :: rest)
      else (Char.ofNat 0xFFFD, b1 :: u1 :: g1 :: g2 :: g3 :: g4 :: rest)
    | short => (Char.ofNat 0xFFFD, short)
  else if 0xDC00 ≤ v ∧ v ≤ 0xDFFF then (Char.ofNat 0xFFFD, tail)
  else (Char.ofNat v, tail)

/-- Body of a JSON string after the opening quote: returns the decoded
characters and the input following the closing quote.  `\uXXXX`
escapes follow `JSON.parse`: a high surrogate followed by a `\u` low
surrogate combines into one code point.  A lone surrogate survives in
a JS string as a lone UTF-16 unit, which Lean `Char` cannot carry; it
is mapped to U+FFFD.  This only affects decoded claims whose field
content is a lone surrogate, never the engine's control flow (such
content never equals the ASCII marker or any ledger field). -/
def parseJStringAux : Nat → List Char → Option (List Char × List Char)
  | 0, _ => none
  | fuel + 1, l =>
    match l with
    | [] => none
    | c :: rest =>
      if c = '"' then some ([], rest)
      else if c = '\\' then
        match rest with
        | [] => none
        | e :: rest2 =>
          if e = '"' then (parseJStringAux fuel rest2).map (fun p => ('"' :: p.1, p.2))
          else if e = '\\' then (parseJStringAux fuel rest2).map (fun p => ('\\' :: p.1, p.2))
          else if e = '/' then (parseJStringAux fuel rest2).map (fun p => ('/' :: p.1, p.2))
          else if e = 'b' then (parseJStringAux fuel rest2).map (fun p => ('\x08' :: p.1, p.2))
          else if e = 'f' then (parseJStringAux fuel rest2).map (fun p => ('\x0c' :: p.1, p.2))
          else if e = 'n' then (parseJStringAux fuel rest2).map (fun p => ('\n' :: p.1, p.2))
          else if e = 'r' then (parseJStringAux fuel rest2).map (fun p => ('\r' :: p.1, p.2))
          else if e = 't' then (parseJStringAux fuel rest2).map (fun p => ('\t' :: p.1, p.2))
          else if e = 'u' then
            match rest2 with
            | h1 :: h2 :: h3 :: h4 :: rest3 =>
              match hexVal h1, hexVal h2, hexVal h3, hexVal h4 with
              | some d1, some d2, some d3, some d4 =>
                let s := uEscapeStep (((d1 * 16 + d2) * 16 + d3) * 16 + d4) rest3
                (parseJStringAux fuel s.2).map (fun p => (s.1 :: p.1, p.2))
              | _, _, _, _ => none
            | _ => none
          else none
      else if c.toNat < 0x20 then none
      else (parseJStringAux fuel rest).map (fun p => (c :: p.1, p.2))

/-- The string-body parser with enough fuel for its input: every step
consumes at least one character, so `length + 1` never runs out. -/
def parseJString (l : List Char) : Option (String × List Char) :=
  (parseJStringAux (l.length + 1) l).map (fun p => (p.1.asString, p.2))

/-- JSON number grammar: `-? (0 | [1-9][0-9]*) (. [0-9]+)? ([eE][+-]?[0-9]+)?`.
Returns the lexeme and the remaining input. -/
def parseNumber (l : List Char) : Option (List Char × List Char) :=
  let span := fun (cs : List Char) => (cs.takeWhile Char.isDigit, cs.dropWhile Char.isDigit)
  let (sign, l1) :=
    match l with
    | '-' :: rest => (['-'], rest)
    | _ => ([], l)
  match l1 with
  | c :: rest =>
    if c = '0' ∨ ('1' ≤ c ∧ c ≤ '9') then
      let (intTail, l2) := if c = '0' then ([], rest) else span rest
      let intPart := c :: intTail
      let (fracPart, l3) :=
        match l2 with
        | '.' :: rest2 =>
          let (ds, l3) := span rest2
          if ds = [] then ([' '], l2) else ('.' :: ds, l3)
        | _ => ([], l2)
      if fracPart = [' '] then none
      else
        let (expPart, l4) :=
          match l3 with
          | e :: rest3 =>
            if e = 'e' ∨ e = 'E' then
              let (es, rest4) :=
                match rest3 with
                | s :: rest4 => if s = '+' ∨ s = '-' then ([s], rest4) else ([], rest3)
                | [] => ([], rest3)
              let (ds, l4) := span rest4
              if ds = [] then ([' '], l3) else (e :: (es ++ ds), l4)
            else ([], l3)
          | [] => ([], l3)
        if expPart = [' '] then none
        else some (sign ++ intPart ++ fracPart ++ expPart, l4)
    else none
  | [] => none

mutual

/-- `JSON.parse` value parser.  `fuel` bounds the recursion depth and
iteration count; `jsonParse` supplies more fuel than any input can
consume, so the bound is never hit on real runs. -/
def parseValue : Nat → List Char → Option (Json × List Char)
  | 0, _ => none
  | fuel + 1, input =>
    match skipWs input with
    | '{' :: rest =>
      match skipWs rest with
      | '}' :: rest2 => some (.obj [], rest2)
      | _ => parseMembers fuel rest []
    | '[' :: rest =>
      match skipWs rest with
      | ']' :: rest2 => some (.arr [], rest2)
      | _ => parseElems fuel rest []
    | '"' :: rest => (parseJString rest).map (fun p => (.str p.1, p.2))
    | 't' :: 'r' :: 'u' :: 'e' :: rest => some (.bool true, rest)
    | 'f' :: 'a' :: 'l' :: 's' :: 'e' :: rest => some (.bool false, rest)
    | 'n' :: 'u' :: 'l' :: 'l' :: rest => some (.null, rest)
    | other => (parseNumber other).map (fun p => (.num p.1.asString, p.2))

/-- Members of an object after `{` (at least one member present). -/
def parseMembers : Nat → List Char → List (String × Json) → Option (Json × List Char)
  | 0, _, _ => none
  | fuel + 1, input, acc =>
    match skipWs input with
    | '"' :: rest =>
      match parseJString rest with
      | none => none
      | some (k, rest2) =>
        match skipWs rest2 with
        | ':' :: rest3 =>
          match parseValue fuel rest3 with
          | none => none
          | some (v, rest4) =>
            match skipWs rest4 with
            | ',' :: rest5 => parseMembers fuel rest5 (acc ++ [(k, v)])
            | '}' :: rest5 => some (.obj (acc ++ [(k, v)]), rest5)
            | _ => none
        | _ => none
    | _ => none

/-- Elements of an array after `[` (at least one element present). -/
def parseElems : Nat → List Char → List Json → Option (Json × List Char)
  | 0, _, _ => none
  | fuel + 1, input, acc =>
    match parseValue fuel input with
    | none => none
    | some (v, rest) =>
      match skipWs rest with
      | ',' :: rest2 => parseElems fuel rest2 (acc ++ [v])
      | ']' :: rest2 => some (.arr (acc ++ [v]), rest2)
      | _ => none

end

/-- `JSON.parse`: parse one value, then require only whitespace after
it; any failure models the thrown `SyntaxError`. -/
def jsonParse (s : String) : Option Json :=
  match parseValue (s.length + 1) s.data with
  | some (j, rest) => if skipWs rest = [] then some j else none
  | none => none

/-- Last binding of a key in a member list: `JSON.parse` builds a JS
object by successive assignment, so a duplicate key keeps its last
value. -/
def lookupLast (ms : List (String × Json)) (k : String) : Option Json :=
  match ms with
  | [] => none
  | (k', v) :: rest =>
    match lookupLast rest k with
    | some r => some r
    | none => if k' = k then some v else none

/-- JS property access `j.k` on a parsed value: `undefined` (`none`)
unless `j` is an object with the key. -/
def jsGet (j : Json) (k : String) : Option Json :=
  match j with
  | .obj ms => lookupLast ms k
  | _ => none

/-- Zero test on a number lexeme: zero iff every mantissa digit is 0.
(Float underflow of tiny nonzero literals to 0 is not modelled; it
cannot affect the engine, where non-object values are rejected by the
marker check regardless of truthiness.) -/
def numIsZero (lex : String) : Bool :=
  (lex.data.takeWhile (fun c => c ≠ 'e' ∧ c ≠ 'E')).all (fun c => !c.isDigit || c = '0')

/-- JS truthiness of a parsed JSON value. -/
def jsTruthy : Json → Bool
  | .null => false
  | .bool b => b
  | .num lex => !numIsZero lex
  | .str s => s ≠ ""
  | .arr _ => true
  | .obj _ => true

/-! ### `JSON.stringify`, specialised to the one shape the source
serialises: a flat object whose values are strings (the token
payload). -/

def hexDigitChar (n : Nat) : Char :=
  "0123456789abcdef".data.getD n '0'

/-- Escaping of one character inside a JSON string literal, as
`JSON.stringify` emits it. -/
def escChar (c : Char) : List Char :=
  if c = '"' then ['\\', '"']
  else if c = '\\' then ['\\', '\\']
  else if c = '\x08' then ['\\', 'b']
  else if c = '\t' then ['\\', 't']
  else if c = '\n' then ['\\', 'n']
  else if c = '\x0c' then ['\\', 'f']
  else if c = '\r' then ['\\', 'r']
  else if c.toNat < 0x20 then
    ['\\', 'u', '0', '0', hexDigitChar (c.toNat / 16), hexDigitChar (c.toNat % 16)]
  else [c]

def escapeChars (l : List Char) : List Char := (l.map escChar).flatten

def quoteChars (s : String) : List Char := '"' :: (escapeChars s.data ++ ['"'])

def memberChars (kv : String × String) : List Char :=
  quoteChars kv.1 ++ (':' :: quoteChars kv.2)

def joinComma : List (List Char) → List Char
  | [] => []
  | [x] => x
  | x :: xs => x ++ (',' :: joinComma xs)

/-- `JSON.stringify` of a flat object of string fields, in insertion
order, no added whitespace. -/
def stringifyStrObj (fields : List (String × String)) : String :=
  ('{' :: (joinComma (fields.map memberChars) ++ ['}'])).asString

/-! ## The ledger and the token codec (src/app.jsx lines 8-79) -/

/-- A row of the mock ledger.  Engine-relevant fields only: the
display-only strings (`name`, `manufacturer`, `supplier`, `shop`) and
the unused `mfg` date never influence `handleVerify` and are omitted.
`exp` is the expiry date as its day index (days since 1970-01-01);
the source keeps it as a `YYYY-MM-DD` string that is only ever used
through `new Date(exp + "T23:59:59")`. -/
structure BatchRecord where
  id : String
  batch : String
  exp : Nat
  checksum : String
  status : String
deriving DecidableEq, Repr

/-- The mock ledger rows (day indices: 2027-08-31 ↦ 21061,
2027-07-31 ↦ 21030, 2027-06-30 ↦ 20999, 2027-06-17 ↦ 20986). -/
def mockLedger : List BatchRecord :=
  [ { id := "MED-001", batch := "B456789", exp := 21061, checksum := "f9a2", status := "active" },
    { id := "MED-002", batch := "B984321", exp := 21030, checksum := "7c3d", status := "active" },
    { id := "MED-003", batch := "C772210", exp := 20999, checksum := "11be", status := "active" },
    { id := "MED-004", batch := "I220015", exp := 20986, checksum := "c0de", status := "recalled" } ]

/-- The fixed protocol marker carried in field `t` of every token. -/
def marker : String := "REDSTEEP-DEMO"

/-- `encodeToken`: `btoa(JSON.stringify({t, id, b, c}))`.  `none`
models the `btoa` throw on a field with a code unit ≥ 256. -/
def encodeToken (row : BatchRecord) : Option String :=
  btoa (stringifyStrObj
    [("t", marker), ("id", row.id), ("b", row.batch), ("c", row.checksum)])

/-- JS strict equality `v === s` between an accessed property (maybe
`undefined`) and a string literal: true only for an identical string. -/
def strictEqStr (v : Option Json) (s : String) : Bool :=
  match v with
  | some (.str s2) => s2 = s
  | _ => false

/-- `decodeToken`: `atob`, then `JSON.parse` (each throw caught as
`null`), then `null` unless the value is truthy with `t` strictly
equal to the marker; otherwise the parsed value is returned as-is. -/
def decodeToken (token : String) : Option Json :=
  match atob token with
  | none => none
  | some text =>
    match jsonParse text with
    | none => none
    | some j =>
      if jsTruthy j && strictEqStr (jsGet j "t") marker then some j else none

/-! ## The verification orchestrator (src/app.jsx lines 82-140) -/

/-- The ledger match predicate of `handleVerify`:
`r.id === decoded.id && r.batch === decoded.b && r.checksum === decoded.c`. -/
def claimMatches (r : BatchRecord) (j : Json) : Bool :=
  strictEqStr (jsGet j "id") r.id &&
  strictEqStr (jsGet j "b") r.batch &&
  strictEqStr (jsGet j "c") r.checksum

/-- `mockLedger.find(...)`: first row whose triple strictly equals the
decoded claim's `id`/`b`/`c`. -/
def ledgerLookup (j : Json) : Option BatchRecord :=
  mockLedger.find? (fun r => claimMatches r j)

/-- JS template-literal conversion of an accessed property to text, as
in the seen-set key.  Number formatting and array joining are
approximated by the stored lexeme / empty text: inside `handleVerify`
the key is built only after a ledger match, which forces all three
fields to be strings, so those branches are unreachable there. -/
def jsToStr : Option Json → String
  | none => "undefined"
  | some .null => "null"
  | some (.bool true) => "true"
  | some (.bool false) => "false"
  | some (.str s) => s
  | some (.num lex) => lex
  | some (.arr _) => ""
  | some (.obj _) => "[object Object]"

/-- The seen-set key template: `` `${id}-${b}-${c}` `` on strings. -/
def keyOfStr (id b c : String) : String := id ++ "-" ++ b ++ "-" ++ c

/-- The seen-set key as computed from the decoded claim. -/
def keyOf (j : Json) : String :=
  keyOfStr (jsToStr (jsGet j "id")) (jsToStr (jsGet j "b")) (jsToStr (jsGet j "c"))

/-- One of the `setVerifyResult` payloads: `ok`, the failure `reason`
string (absent on success), and `data` (the matched row, absent on
decode failure and ledger miss). -/
structure VerifyResult where
  ok : Bool
  reason : Option String
  data : Option BatchRecord
deriving DecidableEq, Repr

/-- The component state touched by `handleVerify`: the module-level
`scanned` set (insertion-ordered key list, membership-observed only)
and the `verifyResult` / `duplicateFlag` React state. -/
structure EngineState where
  scanned : List String
  verifyResult : Option VerifyResult
  duplicateFlag : Bool
deriving DecidableEq, Repr

def msPerDay : Nat := 86400000

/-- `new Date(match.exp + "T23:59:59")` as milliseconds on the local
timeline: 23:59:59.000 of the expiry day. -/
def expCutoffMs (r : BatchRecord) : Nat := r.exp * msPerDay + 86399000

/-- The failure-reason strings of src/app.jsx, verbatim. -/
def invalidReason : String := "Invalid or corrupted QR payload."
def noMatchReason : String := "No matching batch on ledger (possible counterfeit)."
def recalledReason : String := "Batch is recalled by manufacturer."
def expiredReason : String := "Medicine is expired."

/-- The character class removed by JS `String.prototype.trim`:
WhiteSpace (TAB, VT, FF, SP, NBSP, ZWNBSP and the Unicode
space separators) and LineTerminator (LF, CR, LS, PS). -/
def isJsTrimWs (c : Char) : Bool :=
  c.toNat = 0x9 || c.toNat = 0xA || c.toNat = 0xB || c.toNat = 0xC || c.toNat = 0xD ||
  c.toNat = 0x20 || c.toNat = 0xA0 || c.toNat = 0x1680 ||
  (0x2000 ≤ c.toNat && c.toNat ≤ 0x200A) ||
  c.toNat = 0x2028 || c.toNat = 0x2029 || c.toNat = 0x202F || c.toNat = 0x205F ||
  c.toNat = 0x3000 || c.toNat = 0xFEFF

/-- JS `token.trim()`. -/
def jsTrim (s : String) : String :=
  (((s.data.dropWhile isJsTrimWs).reverse.dropWhile isJsTrimWs).reverse).asString

/-- `handleVerify(token)`.  `now` is the millisecond value that
`new Date()` yields inside the call (line 127): the ambient clock is
an input of the transition, not of the JS function's signature. -/
def handleVerify (token : String) (now : Nat) (st : EngineState) : EngineState :=
  let st := { st with duplicateFlag := false }
  match decodeToken (jsTrim token) with
  | none =>
    { st with verifyResult := some ⟨false, some invalidReason, none⟩ }
  | some decoded =>
    match ledgerLookup decoded with
    | none =>
      { st with verifyResult := some ⟨false, some noMatchReason, none⟩ }
    | some m =>
      let key := keyOf decoded
      let st :=
        if key ∈ st.scanned then { st with duplicateFlag := true }
        else { st with scanned := key :: st.scanned }
      let isExpired := now > expCutoffMs m
      if m.status = "recalled" then
        { st with verifyResult := some ⟨false, some recalledReason, some m⟩ }
      else if isExpired then
        { st with verifyResult := some ⟨false, some expiredReason, some m⟩ }
      else
        { st with verifyResult := some ⟨true, none, some m⟩ }

/-- The rule evaluation outcome for a matched record: recall first,
then the strict `now > exp@23:59:59` comparison, else valid. -/
def ruleResult (r : BatchRecord) (now : Nat) : VerifyResult :=
  if r.status = "recalled" then ⟨false, some recalledReason, some r⟩
  else if now > expCutoffMs r then ⟨false, some expiredReason, some r⟩
  else ⟨true, none, some r⟩

/-- The state after a matched verification: duplicate bookkeeping on
the key plus the rule outcome. -/
def postMatch (st : EngineState) (key : String) (res : VerifyResult) : EngineState :=
  { scanned := if key ∈ st.scanned then st.scanned else key :: st.scanned,
    verifyResult := some res,
    duplicateFlag := if key ∈ st.scanned then true else false }

/-! ## Concrete artefacts used by witnesses and counterexamples -/

/-- `encodeToken` of the MED-001 ledger row (checked against `btoa`). -/
def tokenMED001 : String :=
  "eyJ0IjoiUkVEU1RFRVAtREVNTyIsImlkIjoiTUVELTAwMSIsImIiOiJCNDU2Nzg5IiwiYyI6ImY5YTIifQ=="

/-- `encodeToken` of the recalled MED-004 ledger row. -/
def tokenMED004 : String :=
  "eyJ0IjoiUkVEU1RFRVAtREVNTyIsImlkIjoiTUVELTAwNCIsImIiOiJJMjIwMDE1IiwiYyI6ImMwZGUifQ=="

/-- A token agreeing with MED-001 on id and batch but carrying the
checksum "beef" instead of "f9a2". -/
def tokenWrongChecksum : String :=
  "eyJ0IjoiUkVEU1RFRVAtREVNTyIsImlkIjoiTUVELTAwMSIsImIiOiJCNDU2Nzg5IiwiYyI6ImJlZWYifQ=="

/-- The decoded claim of `tokenWrongChecksum`. -/
def wrongChecksumClaim : Json :=
  Json.obj [("t", Json.str "REDSTEEP-DEMO"), ("id", Json.str "MED-001"),
    ("b", Json.str "B456789"), ("c", Json.str "beef")]

/-- Modelled from the spec: the last instant (at the engine's
millisecond resolution) of a calendar day — "the end of
`record.exp`'s calendar day". -/
def specLastInstantOfDay (day : Nat) : Nat := day * msPerDay + (msPerDay - 1)

/-- The decoded claim of `tokenMED001`. -/
def claimMED001 : Json :=
  Json.obj [("t", Json.str "REDSTEEP-DEMO"), ("id", Json.str "MED-001"),
    ("b", Json.str "B456789"), ("c", Json.str "f9a2")]

/-! ## Lemmas: base64 round trip -/

theorem encode6_lt64 (l : List Nat) (h : ∀ b ∈ l, b < 256) : ∀ v ∈ encode6 l, v < 64 := by
  induction l using encode6.induct with
  | case1 a b c rest ih =>
    intro v hv
    have ha := h a (by simp)
    have hb := h b (by simp)
    have hc := h c (by simp)
    simp only [encode6, List.mem_cons] at hv
    rcases hv with rfl | rfl | rfl | rfl | hv
    · omega
    · omega
    · omega
    · omega
    · exact ih (fun x hx => h x (by simp [hx])) v hv
  | case2 a b =>
    intro v hv
    have ha := h a (by simp)
    have hb := h b (by simp)
    simp only [encode6, List.mem_cons] at hv
    rcases hv with rfl | rfl | rfl | hv
    · omega
    · omega
    · omega
    · simp at hv
  | case3 a =>
    intro v hv
    have ha := h a (by simp)
    simp only [encode6, List.mem_cons] at hv
    rcases hv with rfl | rfl | hv
    · omega
    · omega
    · simp at hv
  | case4 => intro v hv; simp [encode6] at hv

theorem decode6_encode6 (l : List Nat) (h : ∀ b ∈ l, b < 256) : decode6 (encode6 l) = l := by
  induction l using encode6.induct with
  | case1 a b c rest ih =>
    have ha := h a (by simp)
    have hb := h b (by simp)
    have hc := h c (by simp)
    simp only [encode6, decode6, List.cons.injEq]
    exact ⟨by omega, by omega, by omega, ih (fun x hx => h x (by simp [hx]))⟩
  | case2 a b =>
    have ha := h a (by simp)
    have hb := h b (by simp)
    simp only [encode6, decode6, List.cons.injEq, and_true]
    exact ⟨by omega, by omega⟩
  | case3 a =>
    have ha := h a (by simp)
    simp only [encode6, decode6, List.cons.injEq, and_true]
    omega
  | case4 => simp [encode6, decode6]

theorem b64val_b64char : ∀ v < 64, b64val (b64char v) = some v := by decide

theorem b64char_not_ws : ∀ v < 64, isB64Ws (b64char v) = false := by decide

theorem b64char_ne_eq : ∀ v < 64, b64char v ≠ '=' := by decide

theorem encode6_length_mod (l : List Nat) :
    ((encode6 l).length + (b64pad l.length).length) % 4 = 0 ∧ (encode6 l).length % 4 ≠ 1 := by
  induction l using encode6.induct with
  | case1 a b c rest ih =>
    have hpad : b64pad (a :: b :: c :: rest).length = b64pad rest.length := by
      have h3 : (a :: b :: c :: rest).length % 3 = rest.length % 3 := by
        simp only [List.length_cons]
        omega
      unfold b64pad
      rw [h3]
    rw [hpad]
    simp only [encode6, List.length_cons]
    omega
  | case2 a b => simp [encode6, b64pad]
  | case3 a => simp [encode6, b64pad]
  | case4 => simp [encode6, b64pad]

theorem b64pad_all_eq (n : Nat) : ∀ x ∈ b64pad n, x = '=' := by
  unfold b64pad
  split <;> simp

theorem dropPadRev_eq_self (l : List Char) (h : ∀ x ∈ l, x ≠ '=') : dropPadRev l = l := by
  rcases l with _ | ⟨a, r⟩
  · rfl
  · have ha : ¬a = '=' := h a (by simp)
    simp [dropPadRev, ha]

theorem dropPad_append_pad (chars : List Char) (n : Nat) (h : ∀ x ∈ chars, x ≠ '=')
    (hcompat : b64pad n = [] ∨ b64pad n = ['='] ∨ b64pad n = ['=', '=']) :
    dropPad (chars ++ b64pad n) = chars := by
  rcases hcompat with hp | hp | hp <;> rw [hp]
  · rw [List.append_nil]
    unfold dropPad
    rw [dropPadRev_eq_self _ (fun x hx => h x (List.mem_reverse.mp hx)), List.reverse_reverse]
  · unfold dropPad
    rw [List.reverse_append]
    rcases hr : chars.reverse with _ | ⟨a, r⟩
    · have hc : chars = [] := by simpa using congrArg List.reverse hr
      subst hc
      rfl
    · have ha : a ≠ '=' := h a (by rw [← List.mem_reverse, hr]; simp)
      rw [show (['='] : List Char).reverse ++ a :: r = '=' :: a :: r from rfl]
      have hstep : dropPadRev ('=' :: a :: r) = a :: r := by
        simp [dropPadRev, ha]
      rw [hstep, ← hr, List.reverse_reverse]
  · unfold dropPad
    rw [List.reverse_append]
    rw [show (['=', '='] : List Char).reverse ++ chars.reverse = '=' :: '=' :: chars.reverse
      from rfl]
    have hstep : dropPadRev ('=' :: '=' :: chars.reverse) = chars.reverse := by
      simp [dropPadRev]
    rw [hstep, List.reverse_reverse]

theorem b64pad_shape (n : Nat) : b64pad n = [] ∨ b64pad n = ['='] ∨ b64pad n = ['=', '='] := by
  unfold b64pad
  split
  · right; right; rfl
  · right; left; rfl
  · left; rfl

theorem mapM_b64val_map_b64char (vals : List Nat) (h : ∀ v ∈ vals, v < 64) :
    (vals.map b64char).mapM b64val = some vals := by
  induction vals with
  | nil => rfl
  | cons v vs ih =>
    have hv := b64val_b64char v (h v (by simp))
    simp only [List.map_cons, List.mapM_cons, hv, Option.pure_def, Option.bind_eq_bind,
      Option.some_bind, ih (fun x hx => h x (by simp [hx]))]

theorem map_ofNat_toNat (l : List Char) : (l.map Char.toNat).map Char.ofNat = l := by
  induction l with
  | nil => rfl
  | cons c cs ih => simp [ih, Char.ofNat_toNat]

/-- Forgiving-base64 inverts `btoa` on every latin1 string. -/
theorem atob_btoa (s : String) (h : ∀ c ∈ s.data, c.toNat < 256) :
    ∃ t, btoa s = some t ∧ atob t = some s := by
  have hall : s.data.all (fun c => c.toNat < 256) = true := by
    rw [List.all_eq_true]
    intro c hc
    simpa using h c hc
  refine ⟨(btoaBytes (s.data.map Char.toNat)).asString, by simp [btoa, hall], ?_⟩
  have hbytes : ∀ b ∈ s.data.map Char.toNat, b < 256 := by
    intro b hb
    rcases List.mem_map.mp hb with ⟨c, hc, rfl⟩
    exact h c hc
  have hv64 := encode6_lt64 (s.data.map Char.toNat) hbytes
  have hchars : ∀ x ∈ (encode6 (s.data.map Char.toNat)).map b64char, x ≠ '=' := by
    intro x hx
    rcases List.mem_map.mp hx with ⟨v, hvmem, rfl⟩
    exact b64char_ne_eq v (hv64 v hvmem)
  have hfilter : (btoaBytes (s.data.map Char.toNat)).filter (fun c => !isB64Ws c) =
      btoaBytes (s.data.map Char.toNat) := by
    apply List.filter_eq_self.mpr
    intro x hx
    unfold btoaBytes at hx
    rcases List.mem_append.mp hx with hx | hx
    · rcases List.mem_map.mp hx with ⟨v, hvmem, rfl⟩
      simp [b64char_not_ws v (hv64 v hvmem)]
    · rw [b64pad_all_eq _ x hx]
      decide
  have hlen := encode6_length_mod (s.data.map Char.toNat)
  have hlen4 : (btoaBytes (s.data.map Char.toNat)).length % 4 = 0 := by
    unfold btoaBytes
    rw [List.length_append, List.length_map]
    exact hlen.1
  have hdrop : dropPad (btoaBytes (s.data.map Char.toNat)) =
      (encode6 (s.data.map Char.toNat)).map b64char :=
    dropPad_append_pad _ _ hchars (b64pad_shape _)
  have hne1 : ¬((encode6 (s.data.map Char.toNat)).map b64char).length % 4 = 1 := by
    rw [List.length_map]
    exact hlen.2
  have hmapM := mapM_b64val_map_b64char _ hv64
  have hdec := decode6_encode6 _ hbytes
  have hdata : ((btoaBytes (s.data.map Char.toNat)).asString).data =
      btoaBytes (s.data.map Char.toNat) := rfl
  simp only [atob, hdata, hfilter, hlen4, if_true, hdrop, hne1, if_false, hmapM, hdec,
    map_ofNat_toNat, ite_true, ite_false]
  cases s
  rfl

/-! ## Lemmas: JSON round trip on the payload shape -/

theorem hexVal_hexDigitChar : ∀ n < 16, hexVal (hexDigitChar n) = some n := by decide

theorem parseJStringAux_quote (fuel : Nat) (tail : List Char) :
    parseJStringAux (fuel + 1) ('"' :: tail) = some ([], tail) := rfl

theorem parseJStringAux_lit (fuel : Nat) (c : Char) (tail : List Char)
    (h1 : ¬c = '"') (h2 : ¬c = '\\') (h3 : ¬c.toNat < 0x20) :
    parseJStringAux (fuel + 1) (c :: tail) =
      (parseJStringAux fuel tail).map (fun p => (c :: p.1, p.2)) := by
  rw [parseJStringAux.eq_def]
  simp [h1, h2, h3]

theorem parseJStringAux_u (fuel : Nat) (dx dy : Nat) (tail : List Char)
    (hdx : dx < 2) (hdy : dy < 16) :
    parseJStringAux (fuel + 1)
        ('\\' :: 'u' :: '0' :: '0' :: hexDigitChar dx :: hexDigitChar dy :: tail) =
      (parseJStringAux fuel tail).map (fun p => (Char.ofNat (dx * 16 + dy) :: p.1, p.2)) := by
  have hx := hexVal_hexDigitChar dx (by omega)
  have hy := hexVal_hexDigitChar dy hdy
  rw [parseJStringAux.eq_def]
  simp only [reduceIte, List.cons.injEq, reduceCtorEq, ite_false, ite_true, if_true, if_false]
  rw [show hexVal '0' = some 0 from rfl, hx, hy]
  have hne1 : ¬(0xD800 ≤ ((0 * 16 + 0) * 16 + dx) * 16 + dy ∧
      ((0 * 16 + 0) * 16 + dx) * 16 + dy ≤ 0xDBFF) := by omega
  have hne2 : ¬(0xDC00 ≤ ((0 * 16 + 0) * 16 + dx) * 16 + dy ∧
      ((0 * 16 + 0) * 16 + dx) * 16 + dy ≤ 0xDFFF) := by omega
  simp only [uEscapeStep, hne1, hne2, if_false, ite_false]
  have : ((0 * 16 + 0) * 16 + dx) * 16 + dy = dx * 16 + dy := by omega
  rw [this]
  simp

/-- Parsing inverts `JSON.stringify` string escaping, for latin1
content, given one fuel unit per source character plus one. -/
theorem parseJStringAux_escape (fuel : Nat) (s rest : List Char) (h : ∀ c ∈ s, c.toNat < 256) :
    parseJStringAux (fuel + s.length + 1) (escapeChars s ++ '"' :: rest) = some (s, rest) := by
  induction s with
  | nil =>
    rw [show escapeChars [] = [] from rfl, List.nil_append]
    exact parseJStringAux_quote _ rest
  | cons c s2 ih =>
    have hc := h c (by simp)
    have ih2 := ih (fun x hx => h x (by simp [hx]))
    have hsplit : escapeChars (c :: s2) = escChar c ++ escapeChars s2 := by
      simp [escapeChars]
    rw [hsplit, List.append_assoc]
    rw [show fuel + (c :: s2).length + 1 = (fuel + s2.length + 1) + 1 by
      simp only [List.length_cons]
      omega]
    by_cases h1 : c = '"'
    · subst h1
      rw [show escChar '"' = ['\\', '"'] from rfl]
      rw [show (['\\', '"'] : List Char) ++ (escapeChars s2 ++ '"' :: rest) =
        '\\' :: '"' :: (escapeChars s2 ++ '"' :: rest) from rfl]
      rw [parseJStringAux.eq_def]
      simp [ih2]
    · by_cases h2 : c = '\\'
      · subst h2
        rw [show escChar '\\' = ['\\', '\\'] from rfl]
        rw [show (['\\', '\\'] : List Char) ++ (escapeChars s2 ++ '"' :: rest) =
          '\\' :: '\\' :: (escapeChars s2 ++ '"' :: rest) from rfl]
        rw [parseJStringAux.eq_def]
        simp [ih2]
      · by_cases h3 : c = '\x08'
        · subst h3
          rw [show escChar '\x08' = ['\\', 'b'] from rfl]
          rw [show (['\\', 'b'] : List Char) ++ (escapeChars s2 ++ '"' :: rest) =
            '\\' :: 'b' :: (escapeChars s2 ++ '"' :: rest) from rfl]
          rw [parseJStringAux.eq_def]
          simp [ih2]
        · by_cases h4 : c = '\t'
          · subst h4
            rw [show escChar '\t' = ['\\', 't'] from rfl]
            rw [show (['\\', 't'] : List Char) ++ (escapeChars s2 ++ '"' :: rest) =
              '\\' :: 't' :: (escapeChars s2 ++ '"' :: rest) from rfl]
            rw [parseJStringAux.eq_def]
            simp [ih2]
          · by_cases h5 : c = '\n'
            · subst h5
              rw [show escChar '\n' = ['\\', 'n'] from rfl]
              rw [show (['\\', 'n'] : List Char) ++ (escapeChars s2 ++ '"' :: rest) =
                '\\' :: 'n' :: (escapeChars s2 ++ '"' :: rest) from rfl]
              rw [parseJStringAux.eq_def]
              simp [ih2]
            · by_cases h6 : c = '\x0c'
              · subst h6
                rw [show escChar '\x0c' = ['\\', 'f'] from rfl]
                rw [show (['\\', 'f'] : List Char) ++ (escapeChars s2 ++ '"' :: rest) =
                  '\\' :: 'f' :: (escapeChars s2 ++ '"' :: rest) from rfl]
                rw [parseJStringAux.eq_def]
                simp [ih2]
              · by_cases h7 : c = '\r'
                · subst h7
                  rw [show escChar '\r' = ['\\', 'r'] from rfl]
                  rw [show (['\\', 'r'] : List Char) ++ (escapeChars s2 ++ '"' :: rest) =
                    '\\' :: 'r' :: (escapeChars s2 ++ '"' :: rest) from rfl]
                  rw [parseJStringAux.eq_def]
                  simp [ih2]
                · by_cases h8 : c.toNat < 0x20
                  · have hesc : escChar c = ['\\', 'u', '0', '0',
                        hexDigitChar (c.toNat / 16), hexDigitChar (c.toNat % 16)] := by
                      simp [escChar, h1, h2, h3, h4, h5, h6, h7, h8]
                    rw [hesc]
                    rw [show (['\\', 'u', '0', '0', hexDigitChar (c.toNat / 16),
                        hexDigitChar (c.toNat % 16)] : List Char) ++
                        (escapeChars s2 ++ '"' :: rest) =
                      '\\' :: 'u' :: '0' :: '0' :: hexDigitChar (c.toNat / 16) ::
                        hexDigitChar (c.toNat % 16) :: (escapeChars s2 ++ '"' :: rest) from rfl]
                    rw [parseJStringAux_u _ (c.toNat / 16) (c.toNat % 16) _
                      (by omega) (by omega)]
                    rw [ih2]
                    have hv : c.toNat / 16 * 16 + c.toNat % 16 = c.toNat := by omega
                    rw [hv, Char.ofNat_toNat]
                    rfl
                  · have hesc : escChar c = [c] := by
                      simp [escChar, h1, h2, h3, h4, h5, h6, h7, h8]
                    rw [hesc]
                    rw [show ([c] : List Char) ++ (escapeChars s2 ++ '"' :: rest) =
                      c :: (escapeChars s2 ++ '"' :: rest) from rfl]
                    rw [parseJStringAux_lit _ c _ h1 h2 h8, ih2]
                    rfl

theorem skipWs_cons (c : Char) (l : List Char) (h : isJsonWs c = false) :
    skipWs (c :: l) = c :: l := by
  simp [skipWs, h]

theorem escChar_length_pos (c : Char) : 1 ≤ (escChar c).length := by
  unfold escChar
  repeat' split
  all_goals simp

theorem escapeChars_length_ge (s : List Char) : s.length ≤ (escapeChars s).length := by
  induction s with
  | nil => simp [escapeChars]
  | cons c s2 ih =>
    have h1 := escChar_length_pos c
    have hsplit : escapeChars (c :: s2) = escChar c ++ escapeChars s2 := by
      simp [escapeChars]
    rw [hsplit, List.length_append, List.length_cons]
    omega

theorem parseJString_escape (k : String) (rest : List Char) (h : ∀ c ∈ k.data, c.toNat < 256) :
    parseJString (escapeChars k.data ++ '"' :: rest) = some (k, rest) := by
  unfold parseJString
  have hb := escapeChars_length_ge k.data
  rw [show (escapeChars k.data ++ '"' :: rest).length + 1 =
      ((escapeChars k.data ++ '"' :: rest).length - k.data.length) + k.data.length + 1 by
    rw [List.length_append, List.length_cons]
    omega]
  rw [parseJStringAux_escape _ _ _ h]
  cases k
  rfl

theorem parseValue_string (fuel : Nat) (tail : List Char) :
    parseValue (fuel + 1) ('"' :: tail) =
      (parseJString tail).map (fun p => (Json.str p.1, p.2)) := rfl

/-- One object member of the serialised payload parses back and hands
control to the continuation decided by the character after it. -/
theorem parseMembers_step (fuel : Nat) (k v : String) (tail : List Char)
    (acc : List (String × Json))
    (hk : ∀ c ∈ k.data, c.toNat < 256) (hv : ∀ c ∈ v.data, c.toNat < 256) :
    parseMembers (fuel + 2)
      ('"' :: (escapeChars k.data ++ '"' :: ':' :: '"' :: (escapeChars v.data ++ '"' :: tail)))
      acc =
      match skipWs tail with
      | ',' :: rest5 => parseMembers (fuel + 1) rest5 (acc ++ [(k, Json.str v)])
      | '}' :: rest5 => some (Json.obj (acc ++ [(k, Json.str v)]), rest5)
      | _ => none := by
  show (match parseJString (escapeChars k.data ++ '"' ::
        (':' :: '"' :: (escapeChars v.data ++ '"' :: tail))) with
    | none => none
    | some (k2, rest2) =>
      match skipWs rest2 with
      | ':' :: rest3 =>
        match parseValue (fuel + 1) rest3 with
        | none => none
        | some (v2, rest4) =>
          match skipWs rest4 with
          | ',' :: rest5 => parseMembers (fuel + 1) rest5 (acc ++ [(k2, v2)])
          | '}' :: rest5 => some (Json.obj (acc ++ [(k2, v2)]), rest5)
          | _ => none
      | _ => none) = _
  rw [parseJString_escape k _ hk]
  show (match parseValue (fuel + 1) ('"' :: (escapeChars v.data ++ '"' :: tail)) with
    | none => none
    | some (v2, rest4) =>
      match skipWs rest4 with
      | ',' :: rest5 => parseMembers (fuel + 1) rest5 (acc ++ [(k, v2)])
      | '}' :: rest5 => some (Json.obj (acc ++ [(k, v2)]), rest5)
      | _ => none) = _
  rw [parseValue_string, parseJString_escape v _ hv]
  rfl

/-- The serialised members of a flat string object parse back to
exactly those members. -/
theorem parseMembers_ser (fields : List (String × String)) (fuel : Nat) (rest : List Char) :
    (∀ kv ∈ fields, (∀ c ∈ (kv.1 : String).data, c.toNat < 256) ∧
      (∀ c ∈ (kv.2 : String).data, c.toNat < 256)) →
    fields ≠ [] →
    ∀ acc, parseMembers (fuel + fields.length + 1)
      (joinComma (fields.map memberChars) ++ '}' :: rest) acc =
      some (Json.obj (acc ++ fields.map (fun kv => (kv.1, Json.str kv.2))), rest) := by
  induction fields with
  | nil => exact fun _ hne _ => absurd rfl hne
  | cons f fs ih =>
    intro h _ acc
    obtain ⟨k, v⟩ := f
    have hk := (h (k, v) (by simp)).1
    have hv := (h (k, v) (by simp)).2
    rcases fs with _ | ⟨f2, fs2⟩
    · have hinput : joinComma ([(k, v)].map memberChars) ++ '}' :: rest =
          '"' :: (escapeChars k.data ++ '"' :: ':' :: '"' ::
            (escapeChars v.data ++ '"' :: ('}' :: rest))) := by
        simp [joinComma, memberChars, quoteChars, List.append_assoc]
      rw [hinput]
      rw [show fuel + [(k, v)].length + 1 = fuel + 2 by simp]
      rw [parseMembers_step fuel k v ('}' :: rest) acc hk hv]
      rw [skipWs_cons '}' rest (by decide)]
      rfl
    · have hinput : joinComma (((k, v) :: f2 :: fs2).map memberChars) ++ '}' :: rest =
          '"' :: (escapeChars k.data ++ '"' :: ':' :: '"' ::
            (escapeChars v.data ++ '"' ::
              (',' :: (joinComma ((f2 :: fs2).map memberChars) ++ '}' :: rest)))) := by
        simp [joinComma, memberChars, quoteChars, List.append_assoc]
      rw [hinput]
      rw [show fuel + ((k, v) :: f2 :: fs2).length + 1 = (fuel + (f2 :: fs2).length) + 2 by
        simp only [List.length_cons]
        omega]
      rw [parseMembers_step (fuel + (f2 :: fs2).length) k v _ acc hk hv]
      rw [skipWs_cons ',' _ (by decide)]
      show parseMembers (fuel + (f2 :: fs2).length + 1)
        (joinComma ((f2 :: fs2).map memberChars) ++ '}' :: rest) (acc ++ [(k, Json.str v)]) = _
      rw [ih (fun kv hkv => h kv (by simp [hkv])) (by simp) (acc ++ [(k, Json.str v)])]
      simp

theorem memberChars_length (kv : String × String) : 5 ≤ (memberChars kv).length := by
  obtain ⟨k, v⟩ := kv
  simp only [memberChars, quoteChars, List.length_append, List.length_cons]
  omega

theorem joinComma_memberChars_length (f : String × String) (fs : List (String × String)) :
    (f :: fs).length ≤ (joinComma ((f :: fs).map memberChars)).length := by
  induction fs generalizing f with
  | nil =>
    have := memberChars_length f
    simp only [List.map_cons, List.map_nil, joinComma, List.length_cons, List.length_nil]
    omega
  | cons f2 fs2 ih =>
    have h1 := memberChars_length f
    have h2 := ih f2
    simp only [List.map_cons, joinComma, List.length_append, List.length_cons] at h2 ⊢
    omega

theorem joinComma_memberChars_head (f : String × String) (fs : List (String × String))
    (tail : List Char) :
    ∃ X, joinComma ((f :: fs).map memberChars) ++ tail = '"' :: X := by
  obtain ⟨k, v⟩ := f
  rcases fs with _ | ⟨f2, fs2⟩
  · refine ⟨escapeChars k.data ++ '"' :: ':' :: '"' :: (escapeChars v.data ++ '"' :: tail), ?_⟩
    simp [joinComma, memberChars, quoteChars, List.append_assoc]
  · refine ⟨escapeChars k.data ++ '"' :: ':' :: '"' :: (escapeChars v.data ++ '"' :: ',' ::
      (joinComma ((f2 :: fs2).map memberChars) ++ tail)), ?_⟩
    simp [joinComma, memberChars, quoteChars, List.append_assoc]

/-- `JSON.parse` inverts the payload serialisation: a nonempty flat
object of latin1 string fields round-trips. -/
theorem jsonParse_ser (fields : List (String × String))
    (h : ∀ kv ∈ fields, (∀ c ∈ (kv.1 : String).data, c.toNat < 256) ∧
      (∀ c ∈ (kv.2 : String).data, c.toNat < 256))
    (hne : fields ≠ []) :
    jsonParse (stringifyStrObj fields) =
      some (Json.obj (fields.map fun kv => (kv.1, Json.str kv.2))) := by
  obtain ⟨f, fs, rfl⟩ : ∃ f fs, fields = f :: fs := by
    rcases fields with _ | ⟨f, fs⟩
    · exact absurd rfl hne
    · exact ⟨f, fs, rfl⟩
  have hdata : (stringifyStrObj (f :: fs)).data =
      '{' :: (joinComma ((f :: fs).map memberChars) ++ '}' :: []) := by
    show ('{' :: (joinComma ((f :: fs).map memberChars) ++ ['}'])).asString.data = _
    rfl
  have hlen : (stringifyStrObj (f :: fs)).length =
      (joinComma ((f :: fs).map memberChars)).length + 2 := by
    show (stringifyStrObj (f :: fs)).data.length = _
    rw [hdata]
    simp
  have hbound := joinComma_memberChars_length f fs
  obtain ⟨X, hX⟩ := joinComma_memberChars_head f fs ('}' :: ([] : List Char))
  unfold jsonParse
  rw [hdata]
  rw [show (stringifyStrObj (f :: fs)).length + 1 =
      ((stringifyStrObj (f :: fs)).length - (f :: fs).length - 1 + (f :: fs).length + 1) + 1 by
    rw [hlen]
    have : (f :: fs).length ≤ (joinComma ((f :: fs).map memberChars)).length := hbound
    omega]
  rw [hX]
  rw [show parseValue
      ((stringifyStrObj (f :: fs)).length - (f :: fs).length - 1 + (f :: fs).length + 1 + 1)
      ('{' :: '"' :: X) =
    parseMembers ((stringifyStrObj (f :: fs)).length - (f :: fs).length - 1 +
      (f :: fs).length + 1) ('"' :: X) [] from rfl]
  rw [← hX]
  rw [parseMembers_ser (f :: fs) _ [] h hne []]
  simp [skipWs]

/-! ## Lemmas: the verification orchestrator -/

theorem strictEqStr_iff (v : Option Json) (s : String) :
    strictEqStr v s = true ↔ v = some (Json.str s) := by
  rcases v with _ | j
  · simp [strictEqStr]
  · cases j <;> simp [strictEqStr]

theorem claimMatches_fields (r : BatchRecord) (j : Json) (h : claimMatches r j = true) :
    jsGet j "id" = some (Json.str r.id) ∧ jsGet j "b" = some (Json.str r.batch) ∧
      jsGet j "c" = some (Json.str r.checksum) := by
  rw [claimMatches, Bool.and_eq_true, Bool.and_eq_true] at h
  exact ⟨(strictEqStr_iff _ _).mp h.1.1, (strictEqStr_iff _ _).mp h.1.2,
    (strictEqStr_iff _ _).mp h.2⟩

/-- On a matched claim the seen-set key is the record's own triple
joined with dashes. -/
theorem keyOf_matched (r : BatchRecord) (j : Json) (h : claimMatches r j = true) :
    keyOf j = keyOfStr r.id r.batch r.checksum := by
  obtain ⟨h1, h2, h3⟩ := claimMatches_fields r j h
  rw [keyOf, h1, h2, h3]
  rfl

/-- Unfolding of a successful ledger lookup: the row is on the ledger
and matches the claim. -/
theorem ledgerLookup_some (j : Json) (r : BatchRecord) (h : ledgerLookup j = some r) :
    r ∈ mockLedger ∧ claimMatches r j = true := by
  rw [ledgerLookup] at h
  refine ⟨List.mem_of_find?_eq_some h, ?_⟩
  have h2 := List.find?_some h
  simpa using h2

theorem handleVerify_decode_fail (token : String) (now : Nat) (st : EngineState)
    (h : decodeToken (jsTrim token) = none) :
    handleVerify token now st =
      { st with duplicateFlag := false,
                verifyResult := some ⟨false, some invalidReason, none⟩ } := by
  simp only [handleVerify, h]

theorem handleVerify_no_match (token : String) (now : Nat) (st : EngineState) (j : Json)
    (hdec : decodeToken (jsTrim token) = some j) (hlook : ledgerLookup j = none) :
    handleVerify token now st =
      { st with duplicateFlag := false,
                verifyResult := some ⟨false, some noMatchReason, none⟩ } := by
  simp only [handleVerify, hdec, hlook]

theorem handleVerify_matched (token : String) (now : Nat) (st : EngineState)
    (j : Json) (r : BatchRecord)
    (hdec : decodeToken (jsTrim token) = some j) (hlook : ledgerLookup j = some r) :
    handleVerify token now st = postMatch st (keyOf j) (ruleResult r now) := by
  simp only [handleVerify, hdec, hlook, postMatch, ruleResult]
  by_cases hk : keyOf j ∈ st.scanned
  · simp only [hk, if_true, ite_true]
    by_cases hs : r.status = "recalled"
    · simp [hs]
    · by_cases he : now > expCutoffMs r
      · simp [hs, he]
      · simp [hs, he]
  · simp only [hk, if_false, ite_false]
    by_cases hs : r.status = "recalled"
    · simp [hs]
    · by_cases he : now > expCutoffMs r
      · simp [hs, he]
      · simp [hs, he]

/-! ## The claims -/

/-- C1: a ledger match is reported only when some ledger record's
(id, batch, checksum) triple is exactly, case-sensitively equal to the
claim's fields, and when no record agrees on all three — in particular
on id+batch agreement with a wrong checksum — the call ends in the
NO_MATCH failure state, exactly the state produced when nothing
matches. -/
theorem claim_C1 (j : Json) :
    (∀ r : BatchRecord, ledgerLookup j = some r →
      r ∈ mockLedger ∧ claimMatches r j = true) ∧
    ((∀ r ∈ mockLedger, claimMatches r j = false) →
      ∀ (token : String) (now : Nat) (st : EngineState),
        decodeToken (jsTrim token) = some j →
        handleVerify token now st =
          { st with duplicateFlag := false,
                    verifyResult := some ⟨false, some noMatchReason, none⟩ }) := by
  constructor
  · intro r hr
    exact ledgerLookup_some j r hr
  · intro hnone token now st hdec
    have hlook : ledgerLookup j = none := by
      rw [ledgerLookup, List.find?_eq_none]
      intro r hrmem
      simp [hnone r hrmem]
    exact handleVerify_no_match token now st j hdec hlook

theorem claim_C1_witness :
    handleVerify tokenWrongChecksum 0 ⟨[], none, false⟩ =
      ⟨[], some ⟨false, some noMatchReason, none⟩, false⟩ :=
  (claim_C1 wrongChecksumClaim).2 (by decide) tokenWrongChecksum 0 ⟨[], none, false⟩ rfl

/-- C2 counterexample: the token carrying `{"t":"REDSTEEP-DEMO"}` —
the marker alone, with id, batch and checksum all missing — still
decodes to a claim object instead of a decode failure. -/
theorem claim_C2_counterexample :
    decodeToken "eyJ0IjoiUkVEU1RFRVAtREVNTyJ9" =
        some (Json.obj [("t", Json.str "REDSTEEP-DEMO")]) ∧
      jsGet (Json.obj [("t", Json.str "REDSTEEP-DEMO")]) "id" = none ∧
      jsGet (Json.obj [("t", Json.str "REDSTEEP-DEMO")]) "b" = none ∧
      jsGet (Json.obj [("t", Json.str "REDSTEEP-DEMO")]) "c" = none :=
  ⟨rfl, rfl, rfl, rfl⟩

/-- C2 (amended): decode fails exactly when the base64 layer fails,
the JSON layer fails, or the parsed value is falsy or lacks the
marker `t = "REDSTEEP-DEMO"`; conversely, whenever both layers
succeed and the value is truthy with the correct marker, the value is
returned — with no check at all on the presence of id/batch/checksum,
so a returned claim is guaranteed only to be a truthy value with the
correct marker. -/
theorem claim_C2 (token : String) :
    (atob token = none → decodeToken token = none) ∧
    (∀ s, atob token = some s → jsonParse s = none → decodeToken token = none) ∧
    (∀ s jv, atob token = some s → jsonParse s = some jv →
      ¬(jsTruthy jv = true ∧ strictEqStr (jsGet jv "t") marker = true) →
      decodeToken token = none) ∧
    (∀ jv, decodeToken token = some jv →
      ∃ s, atob token = some s ∧ jsonParse s = some jv ∧ jsTruthy jv = true ∧
        strictEqStr (jsGet jv "t") marker = true) ∧
    (∀ s jv, atob token = some s → jsonParse s = some jv →
      jsTruthy jv = true → strictEqStr (jsGet jv "t") marker = true →
      decodeToken token = some jv) := by
  refine ⟨?_, ?_, ?_, ?_, ?_⟩
  · intro h
    simp [decodeToken, h]
  · intro s h1 h2
    simp [decodeToken, h1, h2]
  · intro s jv h1 h2 h3
    simp only [decodeToken, h1, h2]
    rw [if_neg]
    intro hc
    rw [Bool.and_eq_true] at hc
    exact h3 ⟨hc.1, hc.2⟩
  · intro jv h
    rcases ha : atob token with _ | s
    · simp only [decodeToken, ha] at h
      exact Option.noConfusion h
    · simp only [decodeToken, ha] at h
      rcases hp : jsonParse s with _ | jv2
      · simp only [hp] at h
        exact Option.noConfusion h
      · simp only [hp] at h
        by_cases hc : (jsTruthy jv2 && strictEqStr (jsGet jv2 "t") marker) = true
        · rw [if_pos hc] at h
          rw [Bool.and_eq_true] at hc
          have hjv : jv2 = jv := by injection h
          subst hjv
          exact ⟨s, rfl, hp, hc.1, hc.2⟩
        · rw [if_neg hc] at h
          exact absurd h (by simp)
  · intro s jv h1 h2 h3 h4
    simp only [decodeToken, h1, h2]
    rw [if_pos]
    rw [Bool.and_eq_true]
    exact ⟨h3, h4⟩

theorem claim_C2_witness :
    decodeToken "%%%" = none ∧
      decodeToken "eyJ0IjoiUkVEU1RFRVAtREVNTyJ9" =
        some (Json.obj [("t", Json.str "REDSTEEP-DEMO")]) :=
  ⟨(claim_C2 "%%%").1 rfl,
   (claim_C2 "eyJ0IjoiUkVEU1RFRVAtREVNTyJ9").2.2.2.2 _ _ rfl rfl rfl rfl⟩

/-- C3 counterexample: with token and seen-set state held fixed, the
outcome still varies with the clock value sampled inside the call
(line 127, `const now = new Date()`), refuting that the evaluation
instant is injected by the caller and never read internally — the
JS `handleVerify(token)` surface takes no `now` argument at all. -/
theorem claim_C3_counterexample :
    handleVerify tokenMED001 (20454 * msPerDay) ⟨[], none, false⟩ ≠
      handleVerify tokenMED001 (21300 * msPerDay) ⟨[], none, false⟩ := by
  decide

/-- C3 (amended): `now` is sampled internally from the system clock,
not passed by the caller; still, the transition is deterministic in
(token, sampled clock value, seen-set): the surfaced result, the
duplicate flag and the final seen-set are independent of the
previously displayed result and flag. -/
theorem claim_C3 (token : String) (now : Nat) (sc : List String)
    (vr1 vr2 : Option VerifyResult) (df1 df2 : Bool) :
    handleVerify token now ⟨sc, vr1, df1⟩ = handleVerify token now ⟨sc, vr2, df2⟩ := by
  rcases hdec : decodeToken (jsTrim token) with _ | j
  · rw [handleVerify_decode_fail _ _ _ hdec, handleVerify_decode_fail _ _ _ hdec]
  · rcases hlook : ledgerLookup j with _ | r
    · rw [handleVerify_no_match _ _ _ _ hdec hlook,
        handleVerify_no_match _ _ _ _ hdec hlook]
    · rw [handleVerify_matched _ _ _ _ _ hdec hlook,
        handleVerify_matched _ _ _ _ _ hdec hlook]
      rfl

/-- C4 counterexample: an instant inside the final second of the
expiry day (2027-08-31T23:59:59.500) is not strictly after the end of
the expiry calendar day, yet the engine already reports
INVALID_EXPIRED — the cutoff is 23:59:59.000, not the end of the
day. -/
theorem claim_C4_counterexample :
    (handleVerify tokenMED001 (21061 * msPerDay + 86399500)
        ⟨[], none, false⟩).verifyResult =
      some ⟨false, some expiredReason,
        some ⟨"MED-001", "B456789", 21061, "f9a2", "active"⟩⟩ ∧
    ¬(21061 * msPerDay + 86399500 > specLastInstantOfDay 21061) := by
  constructor
  · decide
  · decide

/-- C4 (amended): for a matched, non-recalled record the engine is
expired exactly when `now` is strictly after 23:59:59.000 of the
expiry day (so the last 999 ms of the expiry day already count as
expired); at whole-second granularity the spec's boundary examples
hold: 23:59:59 is VALID and next-day 00:00:00 is INVALID_EXPIRED. -/
theorem claim_C4 (token : String) (now : Nat) (st : EngineState) (j : Json) (r : BatchRecord)
    (hdec : decodeToken (jsTrim token) = some j) (hlook : ledgerLookup j = some r)
    (hstatus : r.status ≠ "recalled") :
    ((handleVerify token now st).verifyResult =
        some ⟨false, some expiredReason, some r⟩ ↔ now > expCutoffMs r) ∧
    (now ≤ expCutoffMs r →
      (handleVerify token now st).verifyResult = some ⟨true, none, some r⟩) := by
  rw [handleVerify_matched _ _ _ _ _ hdec hlook]
  constructor
  · constructor
    · intro h
      by_contra hle
      simp only [postMatch, ruleResult, hstatus, if_false, ite_false, hle] at h
      exact absurd (congrArg VerifyResult.ok (Option.some.inj h)) (by simp)
    · intro hgt
      simp [postMatch, ruleResult, hstatus, hgt]
  · intro hle
    have : ¬now > expCutoffMs r := by omega
    simp [postMatch, ruleResult, hstatus, this]

theorem claim_C4_witness :
    (handleVerify tokenMED001 (21061 * msPerDay + 86399000)
        ⟨[], none, false⟩).verifyResult =
      some ⟨true, none, some ⟨"MED-001", "B456789", 21061, "f9a2", "active"⟩⟩ ∧
    (handleVerify tokenMED001 (21062 * msPerDay) ⟨[], none, false⟩).verifyResult =
      some ⟨false, some expiredReason,
        some ⟨"MED-001", "B456789", 21061, "f9a2", "active"⟩⟩ := by
  constructor
  · exact (claim_C4 tokenMED001 (21061 * msPerDay + 86399000) ⟨[], none, false⟩
      claimMED001 ⟨"MED-001", "B456789", 21061, "f9a2", "active"⟩ rfl rfl
      (by decide)).2 (by decide)
  · exact (claim_C4 tokenMED001 (21062 * msPerDay) ⟨[], none, false⟩
      claimMED001 ⟨"MED-001", "B456789", 21061, "f9a2", "active"⟩ rfl rfl
      (by decide)).1.mpr (by decide)

/-- C5: a matched record with status "recalled" yields the
INVALID_RECALLED outcome whatever the evaluation instant is. -/
theorem claim_C5 (token : String) (now : Nat) (st : EngineState) (j : Json) (r : BatchRecord)
    (hdec : decodeToken (jsTrim token) = some j) (hlook : ledgerLookup j = some r)
    (hstatus : r.status = "recalled") :
    (handleVerify token now st).verifyResult =
      some ⟨false, some recalledReason, some r⟩ := by
  rw [handleVerify_matched _ _ _ _ _ hdec hlook]
  simp [postMatch, ruleResult, hstatus]

theorem claim_C5_witness :
    (handleVerify tokenMED004 (21500 * msPerDay) ⟨[], none, false⟩).verifyResult =
        some ⟨false, some recalledReason,
          some ⟨"MED-004", "I220015", 20986, "c0de", "recalled"⟩⟩ ∧
      21500 * msPerDay > expCutoffMs ⟨"MED-004", "I220015", 20986, "c0de", "recalled"⟩ :=
  ⟨claim_C5 tokenMED004 (21500 * msPerDay) ⟨[], none, false⟩
    (Json.obj [("t", Json.str "REDSTEEP-DEMO"), ("id", Json.str "MED-004"),
      ("b", Json.str "I220015"), ("c", Json.str "c0de")])
    ⟨"MED-004", "I220015", 20986, "c0de", "recalled"⟩ rfl rfl rfl, by decide⟩

/-- C6: a call that fails to decode or fails to match the ledger
leaves the seen-set exactly unchanged. -/
theorem claim_C6 (token : String) (now : Nat) (st : EngineState)
    (h : decodeToken (jsTrim token) = none ∨
      ∃ j, decodeToken (jsTrim token) = some j ∧ ledgerLookup j = none) :
    (handleVerify token now st).scanned = st.scanned := by
  rcases h with h | ⟨j, hdec, hlook⟩
  · rw [handleVerify_decode_fail _ _ _ h]
  · rw [handleVerify_no_match _ _ _ _ hdec hlook]

theorem claim_C6_witness :
    (handleVerify "%%%" 0 ⟨["MED-001-B456789-f9a2"], none, false⟩).scanned =
      ["MED-001-B456789-f9a2"] :=
  claim_C6 "%%%" 0 ⟨["MED-001-B456789-f9a2"], none, false⟩ (Or.inl rfl)

/-- C7: on a matched claim the duplicate step keys on the
(id, batch, checksum) triple, reports a duplicate and leaves the set
unchanged when the key is present, otherwise inserts it and reports
no duplicate; and across any sequence of calls the seen-set only ever
grows. -/
theorem claim_C7 :
    (∀ (token : String) (now : Nat) (st : EngineState) (j : Json) (r : BatchRecord),
      decodeToken (jsTrim token) = some j → ledgerLookup j = some r →
      keyOf j = keyOfStr r.id r.batch r.checksum ∧
      (keyOfStr r.id r.batch r.checksum ∈ st.scanned →
        (handleVerify token now st).duplicateFlag = true ∧
        (handleVerify token now st).scanned = st.scanned) ∧
      (keyOfStr r.id r.batch r.checksum ∉ st.scanned →
        (handleVerify token now st).duplicateFlag = false ∧
        (handleVerify token now st).scanned =
          keyOfStr r.id r.batch r.checksum :: st.scanned)) ∧
    (∀ (calls : List (String × Nat)) (st : EngineState),
      st.scanned ⊆ (calls.foldl (fun s c => handleVerify c.1 c.2 s) st).scanned) := by
  have hmono : ∀ (token : String) (now : Nat) (st : EngineState),
      st.scanned ⊆ (handleVerify token now st).scanned := by
    intro token now st
    rcases hdec : decodeToken (jsTrim token) with _ | j
    · rw [handleVerify_decode_fail _ _ _ hdec]
      exact List.Subset.refl _
    · rcases hlook : ledgerLookup j with _ | r
      · rw [handleVerify_no_match _ _ _ _ hdec hlook]
        exact List.Subset.refl _
      · rw [handleVerify_matched _ _ _ _ _ hdec hlook]
        simp only [postMatch]
        by_cases hk : keyOf j ∈ st.scanned
        · simp [hk]
        · simp only [hk, if_false, ite_false]
          exact fun x hx => List.mem_cons_of_mem _ hx
  constructor
  · intro token now st j r hdec hlook
    have hkey : keyOf j = keyOfStr r.id r.batch r.checksum :=
      keyOf_matched r j (ledgerLookup_some j r hlook).2
    refine ⟨hkey, ?_, ?_⟩
    · intro hmem
      rw [handleVerify_matched _ _ _ _ _ hdec hlook, hkey]
      simp [postMatch, hmem]
    · intro hmem
      rw [handleVerify_matched _ _ _ _ _ hdec hlook, hkey]
      simp [postMatch, hmem]
  · intro calls
    induction calls with
    | nil => exact fun st => List.Subset.refl _
    | cons c cs ih =>
      intro st
      exact (hmono c.1 c.2 st).trans (ih (handleVerify c.1 c.2 st))

theorem claim_C7_witness :
    (handleVerify tokenMED001 0
        (handleVerify tokenMED001 0 ⟨[], none, false⟩)).duplicateFlag = true ∧
      (handleVerify tokenMED001 0
        (handleVerify tokenMED001 0 ⟨[], none, false⟩)).scanned =
        (handleVerify tokenMED001 0 ⟨[], none, false⟩).scanned :=
  (claim_C7.1 tokenMED001 0 (handleVerify tokenMED001 0 ⟨[], none, false⟩)
    claimMED001 ⟨"MED-001", "B456789", 21061, "f9a2", "active"⟩ rfl rfl).2.1 (by decide)

/-- C9 counterexample: the dash-joined key is ambiguous — two claims
with different (id, batch, checksum) triples can share one key, since
fields may themselves contain the dash (every ledger id does). -/
theorem claim_C9_counterexample :
    keyOfStr "A-B" "C" "D" = keyOfStr "A" "B-C" "D" ∧
      (("A-B", "C", "D") : String × String × String) ≠ ("A", "B-C", "D") := by
  exact ⟨rfl, by decide⟩

/-- C9 (amended): the dash join is not injective on arbitrary
triples, but every key that verification ever inserts into the
seen-set is the key of some mock-ledger record, and on the ledger's
triples distinct triples give distinct keys — so no two distinct
triples ever collide inside the seen-set. -/
theorem claim_C9 :
    (∀ r1 ∈ mockLedger, ∀ r2 ∈ mockLedger,
      keyOfStr r1.id r1.batch r1.checksum = keyOfStr r2.id r2.batch r2.checksum →
      r1.id = r2.id ∧ r1.batch = r2.batch ∧ r1.checksum = r2.checksum) ∧
    (∀ (token : String) (now : Nat) (st : EngineState) (k : String),
      k ∈ (handleVerify token now st).scanned →
      k ∈ st.scanned ∨ ∃ r ∈ mockLedger, k = keyOfStr r.id r.batch r.checksum) := by
  constructor
  · decide
  · intro token now st k hk
    rcases hdec : decodeToken (jsTrim token) with _ | j
    · rw [handleVerify_decode_fail _ _ _ hdec] at hk
      exact Or.inl hk
    · rcases hlook : ledgerLookup j with _ | r
      · rw [handleVerify_no_match _ _ _ _ hdec hlook] at hk
        exact Or.inl hk
      · rw [handleVerify_matched _ _ _ _ _ hdec hlook] at hk
        simp only [postMatch] at hk
        by_cases hmem : keyOf j ∈ st.scanned
        · rw [if_pos hmem] at hk
          exact Or.inl hk
        · rw [if_neg hmem] at hk
          rcases List.mem_cons.mp hk with rfl | hk
          · exact Or.inr ⟨r, (ledgerLookup_some j r hlook).1,
              (keyOf_matched r j (ledgerLookup_some j r hlook).2)⟩
          · exact Or.inl hk

theorem claim_C9_witness :
    ∃ r ∈ mockLedger, "MED-001-B456789-f9a2" = keyOfStr r.id r.batch r.checksum := by
  have h := claim_C9.2 tokenMED001 0 ⟨[], none, false⟩ "MED-001-B456789-f9a2" (by decide)
  rcases h with h | h
  · exact absurd h (by decide)
  · exact h

/-- C10: the duplicate flag is reset to false at the start of every
call, so after a decode failure or a ledger miss it reads false even
when the previous call had set it. -/
theorem claim_C10 (token : String) (now : Nat) (st : EngineState)
    (h : decodeToken (jsTrim token) = none ∨
      ∃ j, decodeToken (jsTrim token) = some j ∧ ledgerLookup j = none) :
    (handleVerify token now st).duplicateFlag = false := by
  rcases h with h | ⟨j, hdec, hlook⟩
  · rw [handleVerify_decode_fail _ _ _ h]
  · rw [handleVerify_no_match _ _ _ _ hdec hlook]

theorem claim_C10_witness :
    (handleVerify "%%%" 0 ⟨["MED-001-B456789-f9a2"], none, true⟩).duplicateFlag = false :=
  claim_C10 "%%%" 0 ⟨["MED-001-B456789-f9a2"], none, true⟩ (Or.inl rfl)

/-! ## Latin1 character bounds of the serialised payload -/

theorem hexDigitChar_lt : ∀ n < 16, (hexDigitChar n).toNat < 256 := by decide

theorem escChar_latin1 (c : Char) (h : c.toNat < 256) : ∀ d ∈ escChar c, d.toNat < 256 := by
  intro d hd
  unfold escChar at hd
  repeat' split at hd
  all_goals simp only [List.mem_cons, List.not_mem_nil, or_false] at hd
  all_goals first
    | (rcases hd with rfl | rfl <;> decide)
    | (rcases hd with rfl | rfl | rfl | rfl | rfl | rfl <;>
        first
          | decide
          | exact hexDigitChar_lt _ (by omega))
    | (subst hd; exact h)

theorem escapeChars_latin1 (s : List Char) (h : ∀ c ∈ s, c.toNat < 256) :
    ∀ d ∈ escapeChars s, d.toNat < 256 := by
  intro d hd
  unfold escapeChars at hd
  rw [List.mem_flatten] at hd
  obtain ⟨l, hl, hdl⟩ := hd
  obtain ⟨c, hc, rfl⟩ := List.mem_map.mp hl
  exact escChar_latin1 c (h c hc) d hdl

theorem quoteChars_latin1 (s : String) (h : ∀ c ∈ s.data, c.toNat < 256) :
    ∀ d ∈ quoteChars s, d.toNat < 256 := by
  intro d hd
  unfold quoteChars at hd
  rcases List.mem_cons.mp hd with rfl | hd
  · decide
  · rcases List.mem_append.mp hd with hd | hd
    · exact escapeChars_latin1 _ h d hd
    · rcases List.mem_singleton.mp hd with rfl
      decide

theorem memberChars_latin1 (kv : String × String)
    (hk : ∀ c ∈ kv.1.data, c.toNat < 256) (hv : ∀ c ∈ kv.2.data, c.toNat < 256) :
    ∀ d ∈ memberChars kv, d.toNat < 256 := by
  intro d hd
  unfold memberChars at hd
  rcases List.mem_append.mp hd with hd | hd
  · exact quoteChars_latin1 _ hk d hd
  · rcases List.mem_cons.mp hd with rfl | hd
    · decide
    · exact quoteChars_latin1 _ hv d hd

theorem joinComma_mem (L : List (List Char)) (x : Char) (hx : x ∈ joinComma L) :
    x = ',' ∨ ∃ l ∈ L, x ∈ l := by
  induction L with
  | nil => simp [joinComma] at hx
  | cons a L2 ih =>
    rcases L2 with _ | ⟨b, L3⟩
    · exact Or.inr ⟨a, by simp, hx⟩
    · rw [show joinComma (a :: b :: L3) = a ++ (',' :: joinComma (b :: L3)) from rfl] at hx
      rcases List.mem_append.mp hx with hx | hx
      · exact Or.inr ⟨a, by simp, hx⟩
      · rcases List.mem_cons.mp hx with rfl | hx
        · exact Or.inl rfl
        · rcases ih hx with h | ⟨l, hl, hxl⟩
          · exact Or.inl h
          · exact Or.inr ⟨l, by simp [hl], hxl⟩

theorem stringifyStrObj_latin1 (fields : List (String × String))
    (h : ∀ kv ∈ fields, (∀ c ∈ (kv.1 : String).data, c.toNat < 256) ∧
      (∀ c ∈ (kv.2 : String).data, c.toNat < 256)) :
    ∀ c ∈ (stringifyStrObj fields).data, c.toNat < 256 := by
  intro c hc
  have hdata : (stringifyStrObj fields).data =
      '{' :: (joinComma (fields.map memberChars) ++ ['}']) := rfl
  rw [hdata] at hc
  rcases List.mem_cons.mp hc with rfl | hc
  · decide
  · rcases List.mem_append.mp hc with hc | hc
    · rcases joinComma_mem _ _ hc with rfl | ⟨l, hl, hcl⟩
      · decide
      · obtain ⟨kv, hkv, rfl⟩ := List.mem_map.mp hl
        exact memberChars_latin1 kv (h kv hkv).1 (h kv hkv).2 c hcl
    · rcases List.mem_singleton.mp hc with rfl
      decide

/-- C8: encoding any latin1-field record yields a token that decodes
back to the claim {t: marker, id, b, c} with exactly the record's
fields.  (Fields with a code unit ≥ 256 would make the source's
`btoa` throw, so latin1 fields are the codec's domain.) -/
theorem claim_C8 (r : BatchRecord)
    (hid : ∀ c ∈ r.id.data, c.toNat < 256)
    (hbatch : ∀ c ∈ r.batch.data, c.toNat < 256)
    (hchk : ∀ c ∈ r.checksum.data, c.toNat < 256) :
    ∃ tok, encodeToken r = some tok ∧
      decodeToken tok =
        some (Json.obj [("t", Json.str marker), ("id", Json.str r.id),
          ("b", Json.str r.batch), ("c", Json.str r.checksum)]) ∧
      jsGet (Json.obj [("t", Json.str marker), ("id", Json.str r.id),
          ("b", Json.str r.batch), ("c", Json.str r.checksum)]) "t" =
        some (Json.str marker) ∧
      jsGet (Json.obj [("t", Json.str marker), ("id", Json.str r.id),
          ("b", Json.str r.batch), ("c", Json.str r.checksum)]) "id" =
        some (Json.str r.id) ∧
      jsGet (Json.obj [("t", Json.str marker), ("id", Json.str r.id),
          ("b", Json.str r.batch), ("c", Json.str r.checksum)]) "b" =
        some (Json.str r.batch) ∧
      jsGet (Json.obj [("t", Json.str marker), ("id", Json.str r.id),
          ("b", Json.str r.batch), ("c", Json.str r.checksum)]) "c" =
        some (Json.str r.checksum) := by
  have hfields : ∀ kv ∈ [("t", marker), ("id", r.id), ("b", r.batch), ("c", r.checksum)],
      (∀ c ∈ (kv.1 : String).data, c.toNat < 256) ∧
        (∀ c ∈ (kv.2 : String).data, c.toNat < 256) := by
    intro kv hkv
    simp only [List.mem_cons, List.not_mem_nil, or_false] at hkv
    rcases hkv with rfl | rfl | rfl | rfl
    · exact ⟨show ∀ c ∈ ("t" : String).data, c.toNat < 256 by decide,
        show ∀ c ∈ marker.data, c.toNat < 256 by decide⟩
    · exact ⟨show ∀ c ∈ ("id" : String).data, c.toNat < 256 by decide, hid⟩
    · exact ⟨show ∀ c ∈ ("b" : String).data, c.toNat < 256 by decide, hbatch⟩
    · exact ⟨show ∀ c ∈ ("c" : String).data, c.toNat < 256 by decide, hchk⟩
  have hlat := stringifyStrObj_latin1 _ hfields
  obtain ⟨tok, hbtoa, hatob⟩ :=
    atob_btoa (stringifyStrObj [("t", marker), ("id", r.id), ("b", r.batch),
      ("c", r.checksum)]) hlat
  have hparse := jsonParse_ser [("t", marker), ("id", r.id), ("b", r.batch),
    ("c", r.checksum)] hfields (by simp)
  refine ⟨tok, hbtoa, ?_, ?_, ?_, ?_, ?_⟩
  · simp only [decodeToken, hatob, hparse, List.map_cons, List.map_nil]
    rw [if_pos]
    rw [Bool.and_eq_true]
    constructor
    · rfl
    · simp [strictEqStr, jsGet, lookupLast]
  · simp [jsGet, lookupLast]
  · simp [jsGet, lookupLast]
  · simp [jsGet, lookupLast]
  · simp [jsGet, lookupLast]

theorem claim_C8_witness :
    ∃ tok, encodeToken ⟨"MED-001", "B456789", 21061, "f9a2", "active"⟩ = some tok ∧
      decodeToken tok =
        some (Json.obj [("t", Json.str marker), ("id", Json.str "MED-001"),
          ("b", Json.str "B456789"), ("c", Json.str "f9a2")]) ∧
      jsGet (Json.obj [("t", Json.str marker), ("id", Json.str "MED-001"),
          ("b", Json.str "B456789"), ("c", Json.str "f9a2")]) "t" = some (Json.str marker) ∧
      jsGet (Json.obj [("t", Json.str marker), ("id", Json.str "MED-001"),
          ("b", Json.str "B456789"), ("c", Json.str "f9a2")]) "id" =
        some (Json.str "MED-001") ∧
      jsGet (Json.obj [("t", Json.str marker), ("id", Json.str "MED-001"),
          ("b", Json.str "B456789"), ("c", Json.str "f9a2")]) "b" =
        some (Json.str "B456789") ∧
      jsGet (Json.obj [("t", Json.str marker), ("id", Json.str "MED-001"),
          ("b", Json.str "B456789"), ("c", Json.str "f9a2")]) "c" =
        some (Json.str "f9a2") :=
  claim_C8 ⟨"MED-001", "B456789", 21061, "f9a2", "active"⟩ (by decide) (by decide) (by decide)

end MedAuth
